import Mathlib

/-!
Shallow embedding of the vacancy-analytics program (src/program.py, with the
sibling copy src/print_table.py where its `Vacancy.is_suitable` differs).

Python strings are modelled as `List Char`; Python `int`/`float` arithmetic on
salary data as `Int`/`Rat` (the fixed currency rates are exact decimals);
Python dicts (which preserve insertion order) as association lists in insertion
order; exceptions (`KeyError`, `ValueError`, `AttributeError`) as an explicit
`Except` error type.
-/

namespace VacApp

/-- Python strings, modelled as lists of characters. -/
abbrev Str := List Char

/-- Coerce a Lean string literal to the `Str` model. -/
def str (s : String) : Str := s.data

/-- The Python exceptions the modelled code can raise. -/
inductive Err
  | keyError
  | valueError
  | attributeError
deriving DecidableEq

instance {ε α : Type} [DecidableEq ε] [DecidableEq α] : DecidableEq (Except ε α)
  | .error e, .error f =>
    if h : e = f then isTrue (congrArg _ h)
    else isFalse (fun hc => h (Except.error.inj hc))
  | .error _, .ok _ => isFalse (fun hc => Except.noConfusion hc)
  | .ok _, .error _ => isFalse (fun hc => Except.noConfusion hc)
  | .ok x, .ok y =>
    if h : x = y then isTrue (congrArg _ h)
    else isFalse (fun hc => h (Except.ok.inj hc))

/-- Exception propagation: run `f` on the result unless an exception is
already propagating (the `Except` bind, specialized for rewriting in proofs). -/
def ebind {α β : Type} (x : Except Err α) (f : α → Except Err β) : Except Err β :=
  match x with
  | .error e => .error e
  | .ok a => f a

/-- Accumulator for `digitsVal`: consumes decimal digits, failing on the first
non-digit character (as Python `int(...)` does on the digit part). -/
def digitsValAux : List Char → Nat → Option Nat
  | [], acc => some acc
  | c :: rest, acc =>
    if c.isDigit then digitsValAux rest (acc * 10 + (c.toNat - 48)) else none

/-- Value of a non-empty all-digit string; `none` otherwise. -/
def digitsVal : List Char → Option Nat
  | [] => none
  | c :: rest => digitsValAux (c :: rest) 0

/-- Python `int(s)` on the string forms the data uses: an optional sign followed
by one or more decimal digits; anything else (in particular a string containing
a decimal point, such as "10000.0") raises `ValueError`, modelled as `none`.
(Python also tolerates surrounding whitespace and `_` separators; the sanitized
CSV data never contains those, so they are not modelled.) -/
def pyInt (s : Str) : Option Int :=
  match s with
  | [] => none
  | c :: rest =>
    if c = '-' then
      match digitsVal rest with
      | none => none
      | some n => some (-(n : Int))
    else if c = '+' then
      match digitsVal rest with
      | none => none
      | some n => some ((n : Int))
    else
      match digitsVal (c :: rest) with
      | none => none
      | some n => some ((n : Int))

/-- Python `s.lower()` (all codes looked up are ASCII). -/
def lower (s : Str) : Str := s.map Char.toLower

/-- Python `s.split(', ')` (used for the key-skills filter target): greedy
left-to-right split on the two-character separator. -/
def splitSep : List Char → List (List Char)
  | [] => [[]]
  | ',' :: ' ' :: rest => [] :: splitSep rest
  | c :: rest =>
    match splitSep rest with
    | [] => [[c]]
    | h :: t => (c :: h) :: t

/-- Python `s.split(sep)` for a single-character separator. -/
def splitChar (sep : Char) : List Char → List (List Char)
  | [] => [[]]
  | c :: rest =>
    if c = sep then [] :: splitChar sep rest
    else
      match splitChar sep rest with
      | [] => [[c]]
      | h :: t => (c :: h) :: t

/-- `Vacancy.get_date` of program.py (identical to `get_time` of
print_table.py): `'.'.join(reversed(s.split('T')[0].split('-')))`.
`s.split('T')[0]` is the prefix before the first 'T', i.e. `takeWhile`. -/
def get_date (s : Str) : Str :=
  List.intercalate ['.'] ((splitChar '-' (s.takeWhile (fun c => c != 'T'))).reverse)

/-- `Salary.currency_to_rub`: the fixed rate table, with the float literals of
the source given as exact decimal rationals. -/
def currency_to_rub (c : Str) : Option ℚ :=
  if c = str "AZN" then some (3568 / 100)
  else if c = str "BYR" then some (2391 / 100)
  else if c = str "EUR" then some (5990 / 100)
  else if c = str "GEL" then some (2174 / 100)
  else if c = str "KGS" then some (76 / 100)
  else if c = str "KZT" then some (13 / 100)
  else if c = str "RUR" then some 1
  else if c = str "UAH" then some (164 / 100)
  else if c = str "USD" then some (6066 / 100)
  else if c = str "UZS" then some (55 / 10000)
  else none

/-- `Salary.currency_to_ru`: localized currency display names (keys are the
lower-cased codes, as in the source). -/
def currency_to_ru (c : Str) : Option Str :=
  if c = str "azn" then some (str "Манаты")
  else if c = str "byr" then some (str "Белорусские рубли")
  else if c = str "eur" then some (str "Евро")
  else if c = str "gel" then some (str "Грузинский лари")
  else if c = str "kgs" then some (str "Киргизский сом")
  else if c = str "kzt" then some (str "Тенге")
  else if c = str "rur" then some (str "Рубли")
  else if c = str "uah" then some (str "Гривны")
  else if c = str "usd" then some (str "Доллары")
  else if c = str "uzs" then some (str "Узбекский сум")
  else none

/-- `Vacancy.value_to_rus`: the two-level localization table for the
categorical fields `premium` and `experience_id`. -/
def value_to_rus (key v : Str) : Option Str :=
  if key = str "premium" then
    if v = str "false" then some (str "Нет")
    else if v = str "true" then some (str "Да")
    else none
  else if key = str "experience_id" then
    if v = str "noexperience" then some (str "Нет опыта")
    else if v = str "between1and3" then some (str "От 1 года до 3 лет")
    else if v = str "between3and6" then some (str "От 3 до 6 лет")
    else if v = str "morethan6" then some (str "Более 6 лет")
    else none
  else none

/-- Python `key in Vacancy.value_to_rus`. -/
def value_to_rus_hasKey (key : Str) : Bool :=
  key == str "premium" || key == str "experience_id"

/-- `Vacancy.naming_to_en`: the localized field name → internal attribute name
mapping (note the misspelling 'descriprion' for 'Описание', faithfully kept
from the source). -/
def naming_to_en (k : Str) : Option Str :=
  if k = str "Название" then some (str "name")
  else if k = str "Описание" then some (str "descriprion")
  else if k = str "Навыки" then some (str "key_skills")
  else if k = str "Опыт работы" then some (str "experience_id")
  else if k = str "Премиум-вакансия" then some (str "premium")
  else if k = str "Компания" then some (str "employer_name")
  else if k = str "Оклад" then some (str "salary")
  else if k = str "Идентификатор валюты оклада" then some (str "salary_currency")
  else if k = str "Название региона" then some (str "area_name")
  else if k = str "Дата публикации вакансии" then some (str "published_at")
  else none

/-- Truncation of a rational toward zero, i.e. Python `int(float)`. -/
def ratTrunc (q : ℚ) : Int := Int.tdiv q.num (q.den : Int)

/-- Python `needle in hay` on strings: substring containment. -/
def strContains (hay needle : Str) : Bool :=
  match hay with
  | [] => needle == []
  | c :: rest => needle.isPrefixOf (c :: rest) || strContains rest needle

/-- The `Salary` class: the raw salary bound strings, the currency code, and
(only when constructed with `is_for_table=True`) the gross flag. -/
structure Salary where
  salary_from : Str
  salary_to : Str
  salary_currency : Str
  salary_gross : Option Str := none
deriving DecidableEq

/-- `Salary.is_suitable` of program.py (lines 271–285; print_table.py and
task1/task3 carry the identical body): for the salary field, the Python
chained comparison `int(from) <= int(value) <= int(to)` parses `from` and
`value` first and parses `to` only when the first comparison succeeded; for
the currency field it compares the localized currency name with the target. -/
def Salary.is_suitable (s : Salary) (key value : Str) : Except Err Bool :=
  if key = str "salary" then
    match pyInt s.salary_from with
    | none => .error .valueError
    | some lo =>
      match pyInt value with
      | none => .error .valueError
      | some x =>
        if lo ≤ x then
          match pyInt s.salary_to with
          | none => .error .valueError
          | some hi => .ok (decide (x ≤ hi))
        else .ok false
  else
    match currency_to_ru (lower s.salary_currency) with
    | none => .error .keyError
    | some r => .ok (decide (r = value))

/-- `Salary.get_salary_in_rub` (program.py lines 287–293): looks the rate up
first, then multiplies the integer part of each bound (the prefix of the
string before the first '.', parsed with `int`) by the rate and halves the
sum. -/
def Salary.get_salary_in_rub (s : Salary) : Except Err ℚ :=
  match currency_to_rub s.salary_currency with
  | none => .error .keyError
  | some rate =>
    match pyInt (s.salary_from.takeWhile (fun c => c != '.')) with
    | none => .error .valueError
    | some f =>
      match pyInt (s.salary_to.takeWhile (fun c => c != '.')) with
      | none => .error .valueError
      | some t => .ok ((f * rate + t * rate) / 2)

/-- The per-bound currency conversion performed inside
`Salary.get_salary_in_rub`: `int(bound.split('.')[0]) * rate`, i.e. the
spec's `toReferenceCurrency(amount, code)`, acting on the numeric value of
the bound (the split at '.' takes the integer part, truncating toward zero). -/
def toReferenceCurrency (x : ℚ) (c : Str) : Except Err ℚ :=
  match currency_to_rub c with
  | none => .error .keyError
  | some rate => .ok ((ratTrunc x : ℚ) * rate)

/-- A Python value reachable by `Vacancy.__getattribute__` in the filter
fall-through: either a string attribute or the list of skills. -/
inductive PyValue
  | s (v : Str)
  | l (v : List Str)
deriving DecidableEq

/-- Python `==` between such values (values of different types compare
unequal, never raising). -/
def pyEq : PyValue → PyValue → Bool
  | .s a, .s b => a == b
  | .l a, .l b => a == b
  | _, _ => false

namespace Program

/-- The `Vacancy` class of program.py: `name`, `salary`, `area_name` and
`published_at` are always set; the remaining attributes exist only when the
object was built with `is_for_table=True` (modelled with `Option`). -/
structure Vacancy where
  name : Str
  salary : Salary
  area_name : Str
  published_at : Str
  description : Option Str := none
  key_skills : Option (List Str) := none
  experience_id : Option Str := none
  premium : Option Str := none
  employer_name : Option Str := none
deriving DecidableEq

/-- Python `self.__getattribute__(k)` on a program.py `Vacancy`, for the
attribute names reachable from `is_suitable`'s fall-through; an attribute that
does not exist on the object yields `none` (AttributeError). In particular the
misspelled 'descriprion' is not an attribute of any record. -/
def Vacancy.getattr (v : Vacancy) (k : Str) : Option PyValue :=
  if k = str "name" then some (.s v.name)
  else if k = str "area_name" then some (.s v.area_name)
  else if k = str "published_at" then some (.s v.published_at)
  else if k = str "description" then v.description.map .s
  else if k = str "key_skills" then v.key_skills.map .l
  else if k = str "experience_id" then v.experience_id.map .s
  else if k = str "premium" then v.premium.map .s
  else if k = str "employer_name" then v.employer_name.map .s
  else none

/-- `Vacancy.is_suitable` of program.py (lines 165–187). Note: unlike the
print_table.py copy, this body has no `key_skills` branch, so the skills field
falls through to `self.__getattribute__('key_skills') == value`, a list/string
comparison. -/
def Vacancy.is_suitable (v : Vacancy) (key value : Str) (year_only : Bool) :
    Except Err Bool :=
  match naming_to_en key with
  | none => .error .keyError
  | some k =>
    if k = str "name" then .ok (strContains v.name value)
    else if k = str "published_at" then
      if year_only then .ok (value == v.published_at.takeWhile (fun c => c != '-'))
      else .ok (value == get_date v.published_at)
    else if k = str "salary" ∨ k = str "salary_currency" then
      v.salary.is_suitable k value
    else
      match v.getattr k with
      | none => .error .attributeError
      | some sv =>
        if value_to_rus_hasKey k then
          match sv with
          | .s sval =>
            match value_to_rus k (lower sval) with
            | none => .error .keyError
            | some r => .ok (r == value)
          | .l _ => .error .attributeError
        else .ok (pyEq sv (.s value))

end Program

namespace PrintTable

/-- The `Vacancy` class of print_table.py: every attribute is always set. -/
structure Vacancy where
  name : Str
  description : Str
  key_skills : List Str
  experience_id : Str
  premium : Str
  employer_name : Str
  salary : Salary
  area_name : Str
  published_at : Str
deriving DecidableEq

/-- Python `self.__getattribute__(k)` on a print_table.py `Vacancy`. -/
def Vacancy.getattr (v : Vacancy) (k : Str) : Option PyValue :=
  if k = str "name" then some (.s v.name)
  else if k = str "description" then some (.s v.description)
  else if k = str "key_skills" then some (.l v.key_skills)
  else if k = str "experience_id" then some (.s v.experience_id)
  else if k = str "premium" then some (.s v.premium)
  else if k = str "employer_name" then some (.s v.employer_name)
  else if k = str "area_name" then some (.s v.area_name)
  else if k = str "published_at" then some (.s v.published_at)
  else none

/-- `Vacancy.is_suitable` of print_table.py (lines 71–82): the skills branch
is `all([skill in self.key_skills for skill in value.split(', ')])` (AND
semantics); there is no dedicated `name` branch in this copy. -/
def Vacancy.is_suitable (v : Vacancy) (key value : Str) : Except Err Bool :=
  match naming_to_en key with
  | none => .error .keyError
  | some k =>
    if k = str "key_skills" then
      .ok ((splitSep value).all (fun sk => v.key_skills.contains sk))
    else if k = str "published_at" then .ok (value == get_date v.published_at)
    else if k = str "salary" ∨ k = str "salary_currency" then
      v.salary.is_suitable k value
    else
      match v.getattr k with
      | none => .error .attributeError
      | some sv =>
        if value_to_rus_hasKey k then
          match sv with
          | .s sval =>
            match value_to_rus k (lower sval) with
            | none => .error .keyError
            | some r => .ok (r == value)
          | .l _ => .error .attributeError
        else .ok (pyEq sv (.s value))

end PrintTable

namespace Program

/-- `DataStats.filter_vacancies` / the body of `filter_vacancies`:
`list(filter(lambda v: v.is_suitable(key, value, year_only), vacancies))`,
with exceptions from the predicate propagating. -/
def filterE (p : Vacancy → Except Err Bool) : List Vacancy → Except Err (List Vacancy)
  | [] => .ok []
  | v :: rest =>
    match p v with
    | .error e => .error e
    | .ok b =>
      match filterE p rest with
      | .error e => .error e
      | .ok r => .ok (if b then v :: r else r)

/-- `DataStats.get_avg_salary` (program.py lines 520–531): 0 for an empty
list, otherwise `int(sum(midpoints) / len(vacancies))` — note the Python
`int(...)`, which truncates toward zero. -/
def get_avg_salary (vs : List Vacancy) : Except Err Int :=
  if vs.length = 0 then .ok 0
  else
    match vs.mapM (fun v => v.salary.get_salary_in_rub) with
    | .error e => .error e
    | .ok mids => .ok (ratTrunc (mids.sum / (vs.length : ℚ)))

/-- Python `str(i)` for a year number. -/
def yearStr (y : Nat) : Str := Nat.toDigits 10 y

/-- The value of `v.is_suitable('Дата публикации вакансии', str(y), True)`:
`str(y) == published_at.split('-')[0]`. -/
def inYear (y : Nat) (v : Vacancy) : Bool :=
  yearStr y == v.published_at.takeWhile (fun c => c != '-')

/-- The fixed year range `range(2007, 2023)` of `DataStats.calculate_stats`. -/
def yearRange : List Nat := List.range' 2007 16

/-- The year loop of `DataStats.calculate_stats` (program.py lines 465–470):
for each year, filter the full population by publication year; only when the
subset is non-empty, append (year, avg)/(year, count) to the year-series maps,
then filter by profession name and append to the profession-series maps. -/
def statsYearsLoop (vs : List Vacancy) (prof : Str) :
    List Nat →
      Except Err (List (Nat × Int) × List (Nat × Nat) × List (Nat × Int) × List (Nat × Nat))
  | [] => .ok ([], [], [], [])
  | y :: rest =>
    ebind (filterE (fun v => v.is_suitable (str "Дата публикации вакансии") (yearStr y) true) vs)
      (fun fields =>
        if fields.length ≠ 0 then
          ebind (get_avg_salary fields) (fun avg =>
            ebind (filterE (fun v => v.is_suitable (str "Название") prof false) fields)
              (fun fields2 =>
                ebind (get_avg_salary fields2) (fun avg2 =>
                  ebind (statsYearsLoop vs prof rest) (fun r =>
                    .ok ((y, avg) :: r.1, (y, fields.length) :: r.2.1,
                         (y, avg2) :: r.2.2.1, (y, fields2.length) :: r.2.2.2)))))
        else statsYearsLoop vs prof rest)

/-- One step of the area-count loop in `DataStats.calculate_stats_areas`:
`if area not in dic: dic[area] = 0; dic[area] += 1` on an insertion-ordered
dict. -/
def bump (d : List (Str × Nat)) (a : Str) : List (Str × Nat) :=
  if d.any (fun p => p.1 == a) then
    d.map (fun p => if p.1 = a then (p.1, p.2 + 1) else p)
  else d ++ [(a, 1)]

/-- The `dic_areas` dict built by `calculate_stats_areas`: postings counted
per distinct area, keys in first-appearance order. -/
def countAreas (vs : List Vacancy) : List (Str × Nat) :=
  vs.foldl (fun d v => bump d v.area_name) []

/-- The `areas` list of `calculate_stats_areas` (program.py line 496): the
areas whose `count / len(vacancies) >= 0.01`. -/
def keptAreas (vs : List Vacancy) : List Str :=
  (((countAreas vs).filter
      (fun p => decide ((p.2 : ℚ) / (vs.length : ℚ) ≥ 1 / 100))).map Prod.fst)

/-- `float(format(x, '.4f'))`: rounding to 4 decimal places. (Python's float
formatting rounds ties to even; no modelled input hits a tie, so Mathlib's
`round` is used.) -/
def round4 (q : ℚ) : ℚ := (round (q * 10000) : ℚ) / 10000

/-- Value of key `a` in an insertion-ordered dict (`d[a]`, with default 0 for
the lookups the source only performs on present keys). -/
def getCnt (d : List (Str × Nat)) (a : Str) : Nat :=
  ((d.find? (fun p => p.1 == a)).map Prod.snd).getD 0

instance valueDescDecidable {α : Type} [LinearOrder α] :
    DecidableRel (fun p q : Str × α => q.2 ≤ p.2) := fun _ _ => inferInstance

/-- `DataStats.get_sorted_dic` (program.py lines 533–544):
`sorted(dic.items(), key=lambda item: item[1], reverse=True)` truncated to the
first 10 entries. Python's sort is stable, and with `reverse=True` ties keep
their insertion order, which is exactly a stable insertion sort under the
relation "left value ≥ right value". -/
def get_sorted_dic {α : Type} [LinearOrder α] (dic : List (Str × α)) : List (Str × α) :=
  (List.insertionSort (fun p q => q.2 ≤ p.2) dic).take 10

/-- The per-area loop of `calculate_stats_areas` (program.py lines 497–501):
for each kept area, append (area, avg salary) to the salary map and
(area, count) to the share map, then rebuild the whole share map with each
present key mapped to its 4-decimal-rounded share. -/
def areasLoop (vs : List Vacancy) (dic : List (Str × Nat)) :
    List Str → List (Str × Int) → List (Str × ℚ) →
      Except Err (List (Str × Int) × List (Str × ℚ))
  | [], salrs, shares => .ok (salrs, shares)
  | a :: rest, salrs, shares =>
    match filterE (fun v => v.is_suitable (str "Название региона") a false) vs with
    | .error e => .error e
    | .ok fields =>
      match get_avg_salary fields with
      | .error e => .error e
      | .ok avg =>
        areasLoop vs dic rest (salrs ++ [(a, avg)])
          ((shares ++ [(a, (fields.length : ℚ))]).map
            (fun p => (p.1, round4 ((getCnt dic p.1 : ℚ) / (vs.length : ℚ)))))

/-- `DataStats.calculate_stats_areas` (program.py lines 485–504): count per
area, keep the ≥1% areas, fill both area maps, then sort each map descending
by value and truncate it to its top 10. -/
def calculate_stats_areas (vs : List Vacancy) :
    Except Err (List (Str × Int) × List (Str × ℚ)) :=
  match areasLoop vs (countAreas vs) (keptAreas vs) [] [] with
  | .error e => .error e
  | .ok (salrs, shares) => .ok (get_sorted_dic salrs, get_sorted_dic shares)

/-- The statistics produced by one `DataStats.calculate_stats` run. -/
structure Stats where
  salary_years : List (Nat × Int)
  count_years : List (Nat × Nat)
  salary_prof : List (Nat × Int)
  count_prof : List (Nat × Nat)
  areas_with_salrs : List (Str × Int)
  areas_with_shares : List (Str × ℚ)
deriving DecidableEq

/-- `DataStats.calculate_stats` (program.py lines 457–471): the year loop over
the fixed range [2007, 2022] followed by the geography pass. -/
def calculate_stats (vs : List Vacancy) (prof : Str) : Except Err Stats :=
  ebind (statsYearsLoop vs prof yearRange) (fun yr =>
    ebind (calculate_stats_areas vs) (fun ar =>
      .ok ⟨yr.1, yr.2.1, yr.2.2.1, yr.2.2.2, ar.1, ar.2⟩))

end Program

/-! Concrete records used by counterexamples and witnesses. -/

/-- A stats-mode vacancy (salary 100–100 RUR, midpoint 100, published 2020). -/
def cVacA : Program.Vacancy :=
  { name := str "a", salary := ⟨str "100", str "100", str "RUR", none⟩,
    area_name := str "X", published_at := str "2020-05-31T17:32:31+0300" }

/-- A stats-mode vacancy (salary 100–102 RUR, midpoint 101, published 2020). -/
def cVacB : Program.Vacancy :=
  { name := str "a", salary := ⟨str "100", str "102", str "RUR", none⟩,
    area_name := str "X", published_at := str "2020-05-31T17:32:31+0300" }

/-- A stats-mode vacancy (salary 100–103 RUR, midpoint 101.5, published 2020). -/
def cVac2020 : Program.Vacancy :=
  { name := str "a", salary := ⟨str "100", str "103", str "RUR", none⟩,
    area_name := str "X", published_at := str "2020-05-31T17:32:31+0300" }

/-- A table-mode program.py vacancy whose skill set is exactly {Python, SQL}. -/
def cVacSkills : Program.Vacancy :=
  { name := str "a", salary := ⟨str "100", str "103", str "RUR", some (str "True")⟩,
    area_name := str "X", published_at := str "2020-05-31T17:32:31+0300",
    description := some (str "d"), key_skills := some [str "Python", str "SQL"],
    experience_id := some (str "noExperience"), premium := some (str "False"),
    employer_name := some (str "e") }

/-- The print_table.py counterpart of `cVacSkills`. -/
def cVacSkillsPT : PrintTable.Vacancy :=
  { name := str "a", description := str "d", key_skills := [str "Python", str "SQL"],
    experience_id := str "noExperience", premium := str "False",
    employer_name := str "e", salary := ⟨str "100", str "103", str "RUR", some (str "True")⟩,
    area_name := str "X", published_at := str "2020-05-31T17:32:31+0300" }

/-- The statistics `calculate_stats [cVac2020] "ZZZ"` produces. -/
def cStats2020 : Program.Stats :=
  ⟨[(2020, 101)], [(2020, 1)], [(2020, 0)], [(2020, 0)],
   [(str "X", 101)], [(str "X", 1)]⟩

/-- Twelve areas with pairwise distinct values, insertion order scrambled. -/
def cDic12 : List (Str × ℤ) :=
  [(str "a", 7), (str "b", 3), (str "c", 11), (str "d", 1), (str "e", 9),
   (str "f", 5), (str "g", 12), (str "h", 2), (str "i", 10), (str "j", 6),
   (str "k", 8), (str "l", 4)]

/-! Claim theorems. -/

/-- C9: for every program.py record and every target value (and either date
mode), filtering on the description field name 'Описание' raises
AttributeError instead of returning a boolean: the field-name table resolves
it to the misspelled attribute 'descriprion', which no record possesses —
even records that do carry a description. -/
theorem description_filter_attribute_error (v : Program.Vacancy) (value : Str)
    (year_only : Bool) :
    v.is_suitable (str "Описание") value year_only = .error .attributeError := rfl

/-- C2: the key-skills filter. In program.py, `is_suitable` has no key-skills
branch, so on a record whose skill set is exactly {Python, SQL} the target
"Python, SQL" — whose comma-separated tokens are all present in the skill
list — is rejected (the list/string comparison is always false). The sibling
print_table.py predicate implements the claimed AND semantics and accepts the
same record, confirming the intent. -/
theorem skills_filter_program_diverges :
    cVacSkills.key_skills = some [str "Python", str "SQL"] ∧
    splitSep (str "Python, SQL") = [str "Python", str "SQL"] ∧
    Program.Vacancy.is_suitable cVacSkills (str "Навыки") (str "Python, SQL") false
      = .ok false ∧
    PrintTable.Vacancy.is_suitable cVacSkillsPT (str "Навыки") (str "Python, SQL")
      = .ok true :=
  ⟨rfl, rfl, rfl, rfl⟩

/-- C8 counterexample: aggregating over the empty record set does not signal
any error — `calculate_stats` completes normally and produces empty maps. -/
theorem empty_aggregation_completes_cex :
    Program.calculate_stats [] (str "Программист") = .ok ⟨[], [], [], [], [], []⟩ := rfl

/-- C8 (amended): for every profession keyword, invoking the statistics
aggregation on an empty record set completes normally with all six maps
empty; no error is raised (the 1% share comparison is never evaluated because
there are no areas to test). -/
theorem empty_aggregation_completes (prof : Str) :
    Program.calculate_stats [] prof = .ok ⟨[], [], [], [], [], []⟩ := rfl

/-- Truncating an integer-valued rational gives back that integer. -/
theorem ratTrunc_intCast (m : ℤ) : ratTrunc (m : ℚ) = m := by
  unfold ratTrunc
  rw [Rat.num_intCast, Rat.den_intCast]
  exact Int.tdiv_one m

/-- C7 counterexample: currency normalization is not linear on amounts with a
fractional part: with the reference currency, the amount 21 = 2 · 10.5
normalizes to 21, but twice the normalization of 10.5 is 20 (the integer part
is taken before multiplying by the rate). -/
theorem currency_linearity_cex :
    toReferenceCurrency (2 * (21 / 2 : ℚ)) (str "RUR") = .ok 21 ∧
    (toReferenceCurrency (21 / 2 : ℚ) (str "RUR")).map (fun y => 2 * y) = .ok 20 ∧
    (21 : ℚ) ≠ 20 := by
  refine ⟨by with_unfolding_all rfl, by with_unfolding_all rfl, by norm_num⟩

/-- C7 (amended): currency normalization is linear on integer amounts: for
every integer amount and every currency code (supported or not, both sides
failing alike on unsupported codes), normalizing twice the amount equals
twice the normalization. -/
theorem currency_linearity_integer_amounts (n : ℤ) (c : Str) :
    toReferenceCurrency (2 * (n : ℚ)) c
      = (toReferenceCurrency (n : ℚ) c).map (fun y => 2 * y) := by
  unfold toReferenceCurrency
  cases currency_to_rub c with
  | none => rfl
  | some rate =>
    have h2 : (2 * (n : ℚ)) = ((2 * n : ℤ) : ℚ) := by push_cast; ring
    simp only [h2, ratTrunc_intCast, Except.map]
    congr 1
    push_cast
    ring

/-- C3: for every record whose salary bounds parse as integers and every
integer target value, the salary filter accepts exactly the targets lying in
the inclusive range [from, to], comparing the raw bounds (no currency
conversion is involved anywhere in this branch). -/
theorem salary_filter_inclusive_range (s : Salary) (value : Str) (lo hi x : ℤ)
    (h1 : pyInt s.salary_from = some lo) (h2 : pyInt s.salary_to = some hi)
    (h3 : pyInt value = some x) :
    s.is_suitable (str "salary") value = .ok (decide (lo ≤ x ∧ x ≤ hi)) := by
  unfold Salary.is_suitable
  rw [if_pos rfl, h1, h3]
  show (if lo ≤ x then
          match pyInt s.salary_to with
          | none => Except.error Err.valueError
          | some hi => Except.ok (decide (x ≤ hi))
        else Except.ok false) = Except.ok (decide (lo ≤ x ∧ x ≤ hi))
  by_cases h : lo ≤ x
  · rw [if_pos h, h2]
    have hd : decide (lo ≤ x ∧ x ≤ hi) = decide (x ≤ hi) :=
      decide_eq_decide.mpr (and_iff_right h)
    rw [hd]
  · rw [if_neg h]
    have hd : decide (lo ≤ x ∧ x ≤ hi) = false :=
      decide_eq_false (fun hc => h hc.1)
    rw [hd]

/-- Witness for C3 at a concrete record: bounds 100 and 200, target 150. -/
theorem salary_filter_inclusive_range_witness :
    pyInt (str "100") = some 100 ∧ pyInt (str "200") = some 200 ∧
    pyInt (str "150") = some 150 ∧
    Salary.is_suitable ⟨str "100", str "200", str "RUR", none⟩ (str "salary") (str "150")
      = .ok (decide ((100 : ℤ) ≤ 150 ∧ (150 : ℤ) ≤ 200)) :=
  ⟨rfl, rfl, rfl,
    salary_filter_inclusive_range ⟨str "100", str "200", str "RUR", none⟩
      (str "150") 100 200 150 rfl rfl rfl⟩

/-- C1 counterexample: three 2020 vacancies with normalized midpoints 100, 101
and 101 give a mean of 302/3 ≈ 100.67; the year-series map records 100 (the
truncated mean), not the nearest integer 101. -/
theorem avg_salary_not_rounded_cex :
    (Program.calculate_stats [cVacA, cVacB, cVacB] (str "ZZZ")).map
        Program.Stats.salary_years = .ok [(2020, 100)] ∧
    round ((100 + 101 + 101 : ℚ) / 3) = 101 ∧ (100 : ℤ) ≠ 101 := by
  refine ⟨by with_unfolding_all rfl, ?_, by norm_num⟩
  have h : ((100 + 101 + 101 : ℚ) / 3) = 302 / 3 := by norm_num
  rw [h, round_eq]
  norm_num

/-- C1 (amended): when every salary of the list normalizes successfully,
`get_avg_salary` returns 0 for the empty list and otherwise the mean of the
normalized midpoints truncated toward zero (Python `int(...)`), not rounded
to the nearest integer. -/
theorem avg_salary_truncates_mean (vs : List Program.Vacancy) (mids : List ℚ)
    (h : vs.mapM (fun v => v.salary.get_salary_in_rub) = .ok mids) :
    Program.get_avg_salary vs
      = .ok (if vs.length = 0 then 0 else ratTrunc (mids.sum / (vs.length : ℚ))) := by
  unfold Program.get_avg_salary
  by_cases hv : vs.length = 0
  · rw [if_pos hv, if_pos hv]
  · rw [if_neg hv, if_neg hv, h]

/-- Witness for C1's amended theorem: a single vacancy with midpoint 101.5. -/
theorem avg_salary_truncates_mean_witness :
    ([cVac2020].mapM (fun v => v.salary.get_salary_in_rub) = .ok [(203 / 2 : ℚ)]) ∧
    Program.get_avg_salary [cVac2020]
      = .ok (if [cVac2020].length = 0 then 0
             else ratTrunc ([(203 / 2 : ℚ)].sum / ([cVac2020].length : ℚ))) :=
  ⟨by with_unfolding_all rfl,
    avg_salary_truncates_mean [cVac2020] [(203 / 2 : ℚ)] (by with_unfolding_all rfl)⟩

/-- A digit-accumulator run over a string containing '.' fails. -/
theorem digitsValAux_dot (a b : List Char) :
    ∀ acc, digitsValAux (a ++ '.' :: b) acc = none := by
  induction a with
  | nil => intro acc; rfl
  | cons c a ih =>
    intro acc
    by_cases hc : c.isDigit
    · simp [digitsValAux, hc, ih]
    · simp [digitsValAux, hc]

/-- `digitsVal` of a string containing '.' fails. -/
theorem digitsVal_dot (a b : List Char) : digitsVal (a ++ '.' :: b) = none := by
  cases a with
  | nil => rfl
  | cons c a => exact digitsValAux_dot (c :: a) b 0

/-- Every character consumed by a successful digit-accumulator run is a digit. -/
theorem digitsValAux_digits (l : List Char) :
    ∀ acc n, digitsValAux l acc = some n → ∀ c ∈ l, c.isDigit := by
  induction l with
  | nil => intro _ _ _ c hc; cases hc
  | cons d l ih =>
    intro acc n h c hc
    by_cases hd : d.isDigit
    · rw [digitsValAux, if_pos hd] at h
      rcases List.mem_cons.mp hc with rfl | hc'
      · exact hd
      · exact ih _ _ h c hc'
    · rw [digitsValAux, if_neg hd] at h
      cases h

/-- Every character of a string accepted by `digitsVal` is a digit. -/
theorem digitsVal_digits (l : List Char) (n : ℕ) (h : digitsVal l = some n) :
    ∀ c ∈ l, c.isDigit := by
  cases l with
  | nil => cases h
  | cons c l => exact digitsValAux_digits (c :: l) 0 n h

/-- A string accepted by `digitsVal` is accepted by `pyInt` with the same
(non-negative) value. -/
theorem pyInt_of_digitsVal (l : List Char) (n : ℕ) (h : digitsVal l = some n) :
    pyInt l = some (n : ℤ) := by
  cases l with
  | nil => cases h
  | cons c l =>
    have hc : c.isDigit := digitsVal_digits (c :: l) n h c (List.mem_cons_self c l)
    have hminus : ¬(c = '-') := fun he => by rw [he] at hc; cases hc
    have hplus : ¬(c = '+') := fun he => by rw [he] at hc; cases hc
    simp only [pyInt, if_neg hminus, if_neg hplus, h]

/-- `pyInt` rejects a string made of an accepted digit block followed by a
decimal point and anything else. -/
theorem pyInt_dot (a b : List Char) (n : ℕ) (h : digitsVal a = some n) :
    pyInt (a ++ '.' :: b) = none := by
  cases a with
  | nil => cases h
  | cons c a =>
    have hc : c.isDigit := digitsVal_digits (c :: a) n h c (List.mem_cons_self c a)
    have hminus : ¬(c = '-') := fun he => by rw [he] at hc; cases hc
    have hplus : ¬(c = '+') := fun he => by rw [he] at hc; cases hc
    rw [List.cons_append]
    simp only [pyInt, if_neg hminus, if_neg hplus,
      show c :: (a ++ '.' :: b) = (c :: a) ++ '.' :: b from rfl,
      digitsVal_dot]

/-- `takeWhile` over a block where the predicate holds, stopped by '.'. -/
theorem takeWhile_until_dot (a b : List Char) (ha : ∀ c ∈ a, (c != '.') = true) :
    (a ++ '.' :: b).takeWhile (fun c => c != '.') = a := by
  induction a with
  | nil => rfl
  | cons c a ih =>
    have hc : (c != '.') = true := ha c (List.mem_cons_self c a)
    rw [List.cons_append, List.takeWhile_cons, hc]
    simp [ih (fun d hd => ha d (List.mem_cons_of_mem c hd))]

/-- C10: on a record whose salary bound strings carry a fractional part
(digits, a '.', then anything — e.g. "10000.0"), the salary filter raises
ValueError (Python `int` rejects the dotted string) for every target value,
while midpoint normalization succeeds, taking the integer part before the
decimal point of each bound. -/
theorem fractional_bounds_filter_error_midpoint_ok
    (a b a2 b2 : List Char) (cur : Str) (g : Option Str) (r : ℚ) (n m : ℕ)
    (value : Str) (ha : digitsVal a = some n) (ha2 : digitsVal a2 = some m)
    (hc : currency_to_rub cur = some r) :
    (Salary.mk (a ++ '.' :: b) (a2 ++ '.' :: b2) cur g).is_suitable
        (str "salary") value = .error .valueError ∧
    (Salary.mk (a ++ '.' :: b) (a2 ++ '.' :: b2) cur g).get_salary_in_rub
      = .ok (((n : ℚ) * r + (m : ℚ) * r) / 2) := by
  constructor
  · rw [Salary.is_suitable, if_pos rfl]
    simp only [pyInt_dot a b n ha]
  · have hdig : ∀ c ∈ a, (c != '.') = true := by
      intro c hcm
      have : c.isDigit := digitsVal_digits a n ha c hcm
      revert this
      have : ¬(c = '.') → (c != '.') = true := by simp [bne_iff_ne]
      intro hd
      exact this (fun he => by rw [he] at hd; cases hd)
    have hdig2 : ∀ c ∈ a2, (c != '.') = true := by
      intro c hcm
      have hd : c.isDigit := digitsVal_digits a2 m ha2 c hcm
      have : ¬(c = '.') := fun he => by rw [he] at hd; cases hd
      simp [bne_iff_ne, this]
    rw [Salary.get_salary_in_rub]
    simp only [hc, takeWhile_until_dot a b hdig, takeWhile_until_dot a2 b2 hdig2,
      pyInt_of_digitsVal a n ha, pyInt_of_digitsVal a2 m ha2]
    norm_num

/-- Witness for C10: the record with bounds "10000.0" and "150000.0" in RUR. -/
theorem fractional_bounds_filter_error_midpoint_ok_witness :
    digitsVal (str "10000") = some 10000 ∧ digitsVal (str "150000") = some 150000 ∧
    currency_to_rub (str "RUR") = some 1 ∧
    (Salary.mk (str "10000" ++ '.' :: str "0") (str "150000" ++ '.' :: str "0")
        (str "RUR") none).is_suitable (str "salary") (str "100000")
      = .error .valueError ∧
    (Salary.mk (str "10000" ++ '.' :: str "0") (str "150000" ++ '.' :: str "0")
        (str "RUR") none).get_salary_in_rub
      = .ok (((10000 : ℚ) * 1 + (150000 : ℚ) * 1) / 2) := by
  refine ⟨rfl, rfl, rfl, ?_⟩
  exact fractional_bounds_filter_error_midpoint_ok (str "10000") (str "0")
    (str "150000") (str "0") (str "RUR") none 1 10000 150000 (str "100000")
    rfl rfl rfl

/-- C6: `get_sorted_dic` (applied independently to each of the two area maps)
returns, for any 12-entry map with pairwise distinct values, exactly the 10
highest-valued entries in strictly descending value order: the result has
length 10, is strictly descending, consists of entries of the input, and
every surviving entry has a larger value than every discarded one. -/
theorem top_ten_truncation_descending {α : Type} [LinearOrder α]
    (dic : List (Str × α)) (hlen : dic.length = 12)
    (hdist : dic.Pairwise (fun p q => p.2 ≠ q.2)) :
    (Program.get_sorted_dic dic).length = 10 ∧
    (Program.get_sorted_dic dic).Pairwise (fun p q => q.2 < p.2) ∧
    (∀ p ∈ Program.get_sorted_dic dic, p ∈ dic) ∧
    (∀ p ∈ Program.get_sorted_dic dic, ∀ q ∈ dic,
       q ∉ Program.get_sorted_dic dic → q.2 < p.2) := by
  haveI ht : IsTotal (Str × α) (fun p q => q.2 ≤ p.2) := ⟨fun a b => le_total b.2 a.2⟩
  haveI htr : IsTrans (Str × α) (fun p q => q.2 ≤ p.2) :=
    ⟨fun _ _ _ h1 h2 => le_trans h2 h1⟩
  set s := List.insertionSort (fun p q : Str × α => q.2 ≤ p.2) dic with hs
  have hget : Program.get_sorted_dic dic = s.take 10 := rfl
  have hperm : List.Perm s dic := List.perm_insertionSort _ dic
  have hsort : s.Pairwise (fun p q => q.2 ≤ p.2) := List.sorted_insertionSort _ dic
  have hdist' : s.Pairwise (fun p q => p.2 ≠ q.2) :=
    (List.Perm.pairwise_iff (fun h => Ne.symm h) hperm).mpr hdist
  have hslen : s.length = 12 := hperm.length_eq.trans hlen
  have hsplit : s.take 10 ++ s.drop 10 = s := List.take_append_drop 10 s
  rw [hget]
  refine ⟨?_, ?_, ?_, ?_⟩
  · rw [List.length_take, hslen]
    norm_num
  · have h1 : (s.take 10).Pairwise (fun p q => q.2 ≤ p.2) :=
      List.Pairwise.sublist (List.take_sublist 10 s) hsort
    have h2 : (s.take 10).Pairwise (fun p q => p.2 ≠ q.2) :=
      List.Pairwise.sublist (List.take_sublist 10 s) hdist'
    exact (h1.and h2).imp (fun hab => lt_of_le_of_ne hab.1 (Ne.symm hab.2))
  · intro p hp
    exact hperm.subset (List.take_subset 10 s hp)
  · intro p hp q hq hqn
    have hqs : q ∈ s := (hperm.mem_iff).mpr hq
    have hqd : q ∈ s.drop 10 := by
      rcases List.mem_append.mp (by rw [hsplit]; exact hqs) with h | h
      · exact absurd h hqn
      · exact h
    have hpa := (List.pairwise_append.mp (by rw [hsplit]; exact hsort)).2.2
    have hpn := (List.pairwise_append.mp (by rw [hsplit]; exact hdist')).2.2
    exact lt_of_le_of_ne (hpa p hp q hqd) (Ne.symm (hpn p hp q hqd))

/-- Witness for C6: a concrete scrambled 12-area map with distinct values. -/
theorem top_ten_truncation_descending_witness :
    cDic12.length = 12 ∧ cDic12.Pairwise (fun p q => p.2 ≠ q.2) ∧
    ((Program.get_sorted_dic cDic12).length = 10 ∧
     (Program.get_sorted_dic cDic12).Pairwise (fun p q => q.2 < p.2) ∧
     (∀ p ∈ Program.get_sorted_dic cDic12, p ∈ cDic12) ∧
     (∀ p ∈ Program.get_sorted_dic cDic12, ∀ q ∈ cDic12,
        q ∉ Program.get_sorted_dic cDic12 → q.2 < p.2)) :=
  ⟨by decide, by decide,
    top_ten_truncation_descending cDic12 (by decide) (by decide)⟩

/-- The keys of `bump d c` are the keys of `d`, extended by `c` if absent. -/
theorem keys_bump (d : List (Str × Nat)) (c : Str) :
    (Program.bump d c).map Prod.fst =
      if c ∈ d.map Prod.fst then d.map Prod.fst else d.map Prod.fst ++ [c] := by
  unfold Program.bump
  by_cases h : d.any (fun p => p.1 == c) = true
  · have hc : c ∈ d.map Prod.fst := by
      rcases List.any_eq_true.mp h with ⟨p, hp, hpc⟩
      exact List.mem_map.mpr ⟨p, hp, beq_iff_eq.mp hpc⟩
    rw [if_pos h, if_pos hc, List.map_map]
    have hfg : (Prod.fst ∘ fun p : Str × Nat =>
        if p.1 = c then (p.1, p.2 + 1) else p) = Prod.fst := by
      funext p
      by_cases hp : p.1 = c <;> simp [hp]
    rw [hfg]
  · have hc : c ∉ d.map Prod.fst := by
      intro hmem
      rcases List.mem_map.mp hmem with ⟨p, hp, hpc⟩
      exact h (List.any_eq_true.mpr ⟨p, hp, beq_iff_eq.mpr hpc⟩)
    rw [if_neg h, if_neg hc, List.map_append]
    rfl

/-- `bump` keeps the keys without duplicates. -/
theorem nodup_keys_bump (d : List (Str × Nat)) (c : Str)
    (h : (d.map Prod.fst).Nodup) : ((Program.bump d c).map Prod.fst).Nodup := by
  rw [keys_bump]
  by_cases hc : c ∈ d.map Prod.fst
  · rw [if_pos hc]; exact h
  · rw [if_neg hc]
    rw [List.nodup_append]
    exact ⟨h, List.nodup_singleton c, by simpa using hc⟩

/-- Bumping key `c` increments its count when `c` is already present. -/
theorem getCnt_map_incr (d : List (Str × Nat)) (c : Str)
    (h : c ∈ d.map Prod.fst) :
    Program.getCnt (d.map (fun p => if p.1 = c then (p.1, p.2 + 1) else p)) c
      = Program.getCnt d c + 1 := by
  induction d with
  | nil => cases h
  | cons p d ih =>
    by_cases hp : p.1 = c
    · unfold Program.getCnt
      rw [List.map_cons, if_pos hp]
      rw [List.find?_cons_of_pos _ (by simpa using hp),
        List.find?_cons_of_pos _ (by simpa using hp)]
      rfl
    · unfold Program.getCnt
      rw [List.map_cons, if_neg hp]
      rw [List.find?_cons_of_neg _ (by simpa using hp),
        List.find?_cons_of_neg _ (by simpa using hp)]
      have hmem : c ∈ d.map Prod.fst := by
        rw [List.map_cons, List.mem_cons] at h
        rcases h with hcp | hcd
        · exact absurd hcp.symm hp
        · exact hcd
      exact ih hmem

/-- Appending a fresh `(c, 1)` entry after entries with other keys. -/
theorem getCnt_append_fresh (d : List (Str × Nat)) (c : Str)
    (h : ∀ p ∈ d, p.1 ≠ c) :
    Program.getCnt (d ++ [(c, 1)]) c = 1 := by
  induction d with
  | nil =>
    unfold Program.getCnt
    rw [List.nil_append, List.find?_cons_of_pos _ (by simp)]
    rfl
  | cons p d ih =>
    unfold Program.getCnt
    rw [List.cons_append,
      List.find?_cons_of_neg _ (by simpa using h p (List.mem_cons_self p d))]
    exact ih (fun q hq => h q (List.mem_cons_of_mem p hq))

/-- An absent key has count 0. -/
theorem getCnt_absent (d : List (Str × Nat)) (c : Str)
    (h : ∀ p ∈ d, p.1 ≠ c) : Program.getCnt d c = 0 := by
  unfold Program.getCnt
  rw [List.find?_eq_none.mpr (fun p hp => by simpa using h p hp)]
  rfl

/-- Bumping key `c` increments `c`'s count by one. -/
theorem getCnt_bump_self (d : List (Str × Nat)) (c : Str) :
    Program.getCnt (Program.bump d c) c = Program.getCnt d c + 1 := by
  unfold Program.bump
  by_cases h : d.any (fun p => p.1 == c) = true
  · rw [if_pos h]
    exact getCnt_map_incr d c (by
      rcases List.any_eq_true.mp h with ⟨p, hp, hpc⟩
      exact List.mem_map.mpr ⟨p, hp, beq_iff_eq.mp hpc⟩)
  · have habs : ∀ p ∈ d, p.1 ≠ c := by
      intro p hp hpc
      exact h (List.any_eq_true.mpr ⟨p, hp, beq_iff_eq.mpr hpc⟩)
    rw [if_neg h, getCnt_append_fresh d c habs, getCnt_absent d c habs]

/-- Bumping key `c` leaves every other key's count unchanged. -/
theorem getCnt_bump_other (d : List (Str × Nat)) (c b : Str) (hbc : b ≠ c) :
    Program.getCnt (Program.bump d c) b = Program.getCnt d b := by
  unfold Program.bump
  by_cases h : d.any (fun p => p.1 == c) = true
  · rw [if_pos h]
    clear h
    induction d with
    | nil => rfl
    | cons p d ih =>
      by_cases hp : p.1 = b
      · unfold Program.getCnt
        rw [List.map_cons, if_neg (fun hc => hbc (hp.symm.trans hc))]
        rw [List.find?_cons_of_pos _ (by simpa using hp),
          List.find?_cons_of_pos _ (by simpa using hp)]
      · unfold Program.getCnt
        rw [List.map_cons]
        by_cases hpc : p.1 = c
        · rw [if_pos hpc,
            List.find?_cons_of_neg _ (by simpa using hp),
            List.find?_cons_of_neg _ (by simpa using hp)]
          exact ih
        · rw [if_neg hpc,
            List.find?_cons_of_neg _ (by simpa using hp),
            List.find?_cons_of_neg _ (by simpa using hp)]
          exact ih
  · rw [if_neg h]
    clear h
    induction d with
    | nil =>
      unfold Program.getCnt
      have hcb : ¬((c : Str) = b) := fun hc => hbc hc.symm
      rw [List.nil_append, List.find?_cons_of_neg _ (by simpa using hcb)]
    | cons p d ih =>
      unfold Program.getCnt
      rw [List.cons_append]
      by_cases hp : p.1 = b
      · rw [List.find?_cons_of_pos _ (by simpa using hp),
          List.find?_cons_of_pos _ (by simpa using hp)]
      · rw [List.find?_cons_of_neg _ (by simpa using hp),
          List.find?_cons_of_neg _ (by simpa using hp)]
        exact ih

/-- Key membership after a `bump`. -/
theorem mem_keys_bump (d : List (Str × Nat)) (c a : Str) :
    a ∈ (Program.bump d c).map Prod.fst ↔ a ∈ d.map Prod.fst ∨ a = c := by
  rw [keys_bump]
  by_cases h : c ∈ d.map Prod.fst
  · rw [if_pos h]
    constructor
    · exact Or.inl
    · rintro (h1 | rfl)
      · exact h1
      · exact h
  · rw [if_neg h]
    simp [List.mem_append]

/-- Invariant of the area-count fold: keys stay duplicate-free, the keys are
the accumulator's keys plus the areas seen, and each key's count grows by the
number of its occurrences. -/
theorem countAreas_fold (vs : List Program.Vacancy) :
    ∀ d : List (Str × Nat), (d.map Prod.fst).Nodup →
      (((vs.foldl (fun d v => Program.bump d v.area_name) d).map Prod.fst).Nodup ∧
       (∀ a : Str,
          a ∈ (vs.foldl (fun d v => Program.bump d v.area_name) d).map Prod.fst ↔
            a ∈ d.map Prod.fst ∨ ∃ v ∈ vs, v.area_name = a) ∧
       (∀ a : Str,
          Program.getCnt (vs.foldl (fun d v => Program.bump d v.area_name) d) a
            = Program.getCnt d a + vs.countP (fun v => v.area_name == a))) := by
  induction vs with
  | nil =>
    intro d hd
    refine ⟨hd, fun a => ?_, fun a => ?_⟩
    · simp
    · simp
  | cons v vs ih =>
    intro d hd
    rw [List.foldl_cons]
    obtain ⟨h1, h2, h3⟩ := ih (Program.bump d v.area_name)
      (nodup_keys_bump d v.area_name hd)
    refine ⟨h1, fun a => ?_, fun a => ?_⟩
    · rw [h2 a, mem_keys_bump]
      constructor
      · rintro ((ha | rfl) | ⟨w, hw, rfl⟩)
        · exact Or.inl ha
        · exact Or.inr ⟨v, List.mem_cons_self v vs, rfl⟩
        · exact Or.inr ⟨w, List.mem_cons_of_mem v hw, rfl⟩
      · rintro (ha | ⟨w, hw, rfl⟩)
        · exact Or.inl (Or.inl ha)
        · rcases List.mem_cons.mp hw with rfl | hw'
          · exact Or.inl (Or.inr rfl)
          · exact Or.inr ⟨w, hw', rfl⟩
    · rw [h3 a, List.countP_cons]
      by_cases hv : v.area_name = a
      · subst hv
        rw [getCnt_bump_self]
        have hb : (v.area_name == v.area_name) = true := beq_iff_eq.mpr rfl
        rw [hb]
        simp only [if_true]
        omega
      · rw [getCnt_bump_other d v.area_name a (fun hc => hv hc.symm)]
        have : (v.area_name == a) = false := by simpa using hv
        rw [this]
        simp

/-- The keys of `countAreas` are free of duplicates. -/
theorem nodup_keys_countAreas (vs : List Program.Vacancy) :
    ((Program.countAreas vs).map Prod.fst).Nodup :=
  (countAreas_fold vs [] (by simp)).1

/-- An area is a key of `countAreas` exactly when some vacancy has it. -/
theorem mem_keys_countAreas (vs : List Program.Vacancy) (a : Str) :
    a ∈ (Program.countAreas vs).map Prod.fst ↔ ∃ v ∈ vs, v.area_name = a := by
  have h := (countAreas_fold vs [] (by simp)).2.1 a
  simpa using h

/-- The count recorded for an area is its number of postings. -/
theorem getCnt_countAreas (vs : List Program.Vacancy) (a : Str) :
    Program.getCnt (Program.countAreas vs) a
      = vs.countP (fun v => v.area_name == a) := by
  have h := (countAreas_fold vs [] (by simp)).2.2 a
  have h0 : Program.getCnt [] a = 0 := rfl
  rw [h0] at h
  simpa using h

/-- In a dict with duplicate-free keys, `find?` by an entry's key returns
exactly that entry. -/
theorem find?_key_of_mem :
    ∀ (d : List (Str × Nat)), (d.map Prod.fst).Nodup →
      ∀ p ∈ d, d.find? (fun q => q.1 == p.1) = some p := by
  intro d
  induction d with
  | nil => intro _ p hp; cases hp
  | cons q d ih =>
    intro hd p hp
    rcases List.mem_cons.mp hp with rfl | hpd
    · rw [List.find?_cons_of_pos _ (by simp)]
    · rw [List.map_cons, List.nodup_cons] at hd
      have hq : q.1 ≠ p.1 := by
        intro he
        exact hd.1 (he ▸ List.mem_map.mpr ⟨p, hpd, rfl⟩)
      rw [List.find?_cons_of_neg _ (by simpa using hq)]
      exact ih hd.2 p hpd

/-- C5: the geography pass retains an area if and only if the fraction of
postings located there is at least 1/100; the boundary is closed (the
comparison is `≥`). With an empty population both sides are false (the share
comparison never runs, and 0/0 is 0 < 1/100 on the right). -/
theorem area_threshold_closed_boundary (vs : List Program.Vacancy) (a : Str) :
    a ∈ Program.keptAreas vs ↔
      ((vs.countP (fun v => v.area_name == a) : ℚ) / (vs.length : ℚ) ≥ 1 / 100) := by
  unfold Program.keptAreas
  constructor
  · intro h
    rcases List.mem_map.mp h with ⟨p, hpf, rfl⟩
    rcases List.mem_filter.mp hpf with ⟨hpc, hcond⟩
    have hg : Program.getCnt (Program.countAreas vs) p.1 = p.2 := by
      unfold Program.getCnt
      rw [find?_key_of_mem (Program.countAreas vs) (nodup_keys_countAreas vs) p hpc]
      rfl
    have hval : p.2 = vs.countP (fun v => v.area_name == p.1) := by
      rw [← hg, getCnt_countAreas]
    have hge := of_decide_eq_true hcond
    rwa [hval] at hge
  · intro h
    have hpos : vs.countP (fun v => v.area_name == a) ≠ 0 := by
      intro h0
      rw [h0] at h
      norm_num at h
    obtain ⟨v, hv, hva⟩ := List.countP_pos_iff.mp (Nat.pos_of_ne_zero hpos)
    have hkey : a ∈ (Program.countAreas vs).map Prod.fst :=
      (mem_keys_countAreas vs a).mpr ⟨v, hv, beq_iff_eq.mp hva⟩
    rcases List.mem_map.mp hkey with ⟨p, hpc, hpa⟩
    refine List.mem_map.mpr ⟨p, List.mem_filter.mpr ⟨hpc, ?_⟩, hpa⟩
    have hg : Program.getCnt (Program.countAreas vs) p.1 = p.2 := by
      unfold Program.getCnt
      rw [find?_key_of_mem (Program.countAreas vs) (nodup_keys_countAreas vs) p hpc]
      rfl
    have hval : p.2 = vs.countP (fun v => v.area_name == a) := by
      rw [← hg, hpa, getCnt_countAreas]
    exact decide_eq_true (by rw [hval]; exact h)

/-- `filterE` with an exception-free predicate is `List.filter`. -/
theorem filterE_ok_of_pure (q : Program.Vacancy → Bool)
    (p : Program.Vacancy → Except Err Bool) (hp : ∀ v, p v = .ok (q v)) :
    ∀ vs : List Program.Vacancy, Program.filterE p vs = .ok (vs.filter q) := by
  intro vs
  induction vs with
  | nil => rfl
  | cons v rest ih =>
    rw [Program.filterE, hp v, ih, List.filter_cons]

/-- The year filter of the statistics pass never raises: it compares the year
string with the prefix of `published_at` before the first '-'. -/
theorem year_filter_pure (y : Nat) (v : Program.Vacancy) :
    v.is_suitable (str "Дата публикации вакансии") (Program.yearStr y) true
      = .ok (Program.inYear y v) := rfl

/-- The profession filter never raises: it is substring containment. -/
theorem prof_filter_pure (prof : Str) (v : Program.Vacancy) :
    v.is_suitable (str "Название") prof false = .ok (strContains v.name prof) := rfl

/-- `ebind` on a success applies the continuation. -/
theorem ebind_ok {α β : Type} (a : α) (f : α → Except Err β) :
    ebind (.ok a) f = f a := rfl

/-- `ebind` propagates an exception. -/
theorem ebind_error {α β : Type} (e : Err) (f : α → Except Err β) :
    ebind (.error e) f = .error e := rfl

/-- Keys collected by the year loop: exactly the processed years whose
subset of the population is non-empty, in range order, in both the salary and
the count map. -/
theorem statsYearsLoop_keys (vs : List Program.Vacancy) (prof : Str) :
    ∀ ys : List Nat,
      ∀ r : List (Nat × Int) × List (Nat × Nat) × List (Nat × Int) × List (Nat × Nat),
        Program.statsYearsLoop vs prof ys = .ok r →
          r.1.map Prod.fst
              = ys.filter (fun y => decide ((vs.filter (Program.inYear y)).length ≠ 0)) ∧
          r.2.1.map Prod.fst
              = ys.filter (fun y => decide ((vs.filter (Program.inYear y)).length ≠ 0)) := by
  intro ys
  induction ys with
  | nil =>
    intro r h
    have h' : (Except.ok ([], [], [], []) :
        Except Err (List (Nat × Int) × List (Nat × Nat) ×
          List (Nat × Int) × List (Nat × Nat))) = .ok r := h
    injection h' with h''
    subst h''
    exact ⟨rfl, rfl⟩
  | cons y rest ih =>
    intro r h
    simp only [Program.statsYearsLoop,
      filterE_ok_of_pure (Program.inYear y) _ (year_filter_pure y) vs, ebind_ok] at h
    by_cases hF : (vs.filter (Program.inYear y)).length = 0
    · rw [if_neg (not_not_intro hF)] at h
      have hy : (decide ((vs.filter (Program.inYear y)).length ≠ 0)) = false :=
        decide_eq_false (not_not_intro hF)
      simp only [List.filter_cons, hy, Bool.false_eq_true, if_false]
      exact ih r h
    · rw [if_pos hF] at h
      cases hA : Program.get_avg_salary (vs.filter (Program.inYear y)) with
      | error e =>
        rw [hA, ebind_error] at h
        exact Except.noConfusion h
      | ok avg =>
        rw [hA] at h
        simp only [ebind_ok,
          filterE_ok_of_pure (fun v => strContains v.name prof) _
            (prof_filter_pure prof) (vs.filter (Program.inYear y))] at h
        cases hB : Program.get_avg_salary
            ((vs.filter (Program.inYear y)).filter
              (fun v => strContains v.name prof)) with
        | error e =>
          rw [hB, ebind_error] at h
          exact Except.noConfusion h
        | ok avg2 =>
          rw [hB] at h
          simp only [ebind_ok] at h
          cases hR : Program.statsYearsLoop vs prof rest with
          | error e =>
            rw [hR, ebind_error] at h
            exact Except.noConfusion h
          | ok r' =>
            rw [hR] at h
            simp only [ebind_ok] at h
            injection h with h'
            subst h'
            have hy : (decide ((vs.filter (Program.inYear y)).length ≠ 0)) = true :=
              decide_eq_true hF
            simp only [List.filter_cons, hy, if_true]
            obtain ⟨ih1, ih2⟩ := ih r' hR
            exact ⟨by simp only [List.map_cons, ih1], by simp only [List.map_cons, ih2]⟩

/-- C4 (amended): after a successful aggregation run, the year-series maps
`salary_years` and `count_years` have an entry exactly for each year of the
fixed range [2007, 2022] in which at least one record was published — years
with no records are skipped, not recorded. -/
theorem year_series_keys_nonempty_years (vs : List Program.Vacancy) (prof : Str)
    (st : Program.Stats) (h : Program.calculate_stats vs prof = .ok st) :
    st.salary_years.map Prod.fst
        = Program.yearRange.filter
            (fun y => decide ((vs.filter (Program.inYear y)).length ≠ 0)) ∧
    st.count_years.map Prod.fst
        = Program.yearRange.filter
            (fun y => decide ((vs.filter (Program.inYear y)).length ≠ 0)) := by
  unfold Program.calculate_stats at h
  cases hY : Program.statsYearsLoop vs prof Program.yearRange with
  | error e =>
    rw [hY, ebind_error] at h
    exact Except.noConfusion h
  | ok r =>
    rw [hY] at h
    simp only [ebind_ok] at h
    cases hA : Program.calculate_stats_areas vs with
    | error e =>
      rw [hA, ebind_error] at h
      exact Except.noConfusion h
    | ok ar =>
      rw [hA] at h
      simp only [ebind_ok] at h
      injection h with h'
      obtain ⟨k1, k2⟩ := statsYearsLoop_keys vs prof Program.yearRange r hY
      subst h'
      exact ⟨k1, k2⟩

/-- C4 counterexample: with a single record published in 2020, the year-series
salary map has the sole key 2020 — the year 2007 lies in the fixed range but
gets no entry, because no record was published then. -/
theorem year_series_skips_empty_years_cex :
    (Program.calculate_stats [cVac2020] (str "ZZZ")).map
        (fun st => st.salary_years.map Prod.fst) = .ok [2020] ∧
    2007 ∈ Program.yearRange ∧ (2007 : ℕ) ∉ [(2020 : ℕ)] := by
  refine ⟨by with_unfolding_all rfl, by decide, by decide⟩

/-- Witness for C4's amended theorem at a concrete one-record population. -/
theorem year_series_keys_nonempty_years_witness :
    Program.calculate_stats [cVac2020] (str "ZZZ") = .ok cStats2020 ∧
    (cStats2020.salary_years.map Prod.fst
        = Program.yearRange.filter
            (fun y => decide (([cVac2020].filter (Program.inYear y)).length ≠ 0)) ∧
     cStats2020.count_years.map Prod.fst
        = Program.yearRange.filter
            (fun y => decide (([cVac2020].filter (Program.inYear y)).length ≠ 0))) :=
  ⟨by with_unfolding_all rfl,
    year_series_keys_nonempty_years [cVac2020] (str "ZZZ") cStats2020
      (by with_unfolding_all rfl)⟩

end VacApp
